import Mathlib

/-!
Verification of the action-queue coordinator of SatisfactoryModManager
(frontend store `mods.ts`, here `src/unnamed/part_000`, lines 154-213).

The coordinator consists of:
* `queuedActionsInternal` — a Svelte writable store holding the list of
  `QueuedAction { mod, action, func }`; `queuedMods` mirrors it as the
  published snapshot;
* `modActionsQueue = queue(worker)` — an `async`-library queue with the
  default concurrency of 1; the worker runs `task()` and on settlement
  (both `.then(complete)` and `.catch(complete)` route into the same
  `complete`) filters the registry by callable identity and calls `cb(e)`;
* `modActionsQueue.empty(...)` — pauses the queue when the waiting list
  becomes empty (the last waiting task is handed to the worker) and
  `queueAutoStart` is off;
* `queueAutoStart.subscribe(...)` — resumes on transition to true, pauses
  on transition to false;
* `startQueue` — `modActionsQueue.resume()`;
* `addQueuedModAction(mod, action, func)` — appends to the registry,
  resumes when auto-start is on, `pushAsync(func)`;
* `removeQueuedModAction(mod)` — finds the first registry entry with the
  given mod, removes waiting tasks whose `data` is reference-equal to that
  entry's `func` (`q.remove` touches only the waiting list, never a running
  task, and never calls the removed tasks' callbacks), and filters every
  entry with that mod out of the registry.

The embedding below is a state machine.  Each submission receives a fresh
numeric id (`nextId`), which also stands for the identity of its callable:
`addQueuedModAction` builds a fresh closure per call, so callables of
distinct submissions are never reference-equal.  JavaScript settlement
values are opaque except for their truthiness, which the `async` library's
`pushAsync` callback inspects: `cb(e)` rejects the pushed task's promise
when `e` is truthy and resolves it with `undefined` otherwise — note that
the worker passes a fulfillment value of `task()` through the same `e`
slot.
-/

namespace SMM

/-- One entry of `queuedActionsInternal`: mod identity, action kind, and the
id standing for the reference identity of the `func` callable. -/
structure QueuedAction where
  id : Nat
  mod : String
  action : String
deriving DecidableEq

/-- An opaque JavaScript settlement value: a tag distinguishing values and
the truthiness bit that `cb(e)` inspects. -/
structure JSVal where
  tag : Nat
  truthy : Bool
deriving DecidableEq

/-- Events driving the coordinator: the exported API calls
(`addQueuedModAction`, `removeQueuedModAction`, `startQueue`,
`queueAutoStart.set`), plus the two internal transitions of the `async`
queue (handing the waiting head to the worker, and settlement of the
running task; `fulfilled` records whether the operation's promise
fulfilled or rejected — the worker routes both into `complete`). -/
inductive Event where
  | submit (mod action : String)
  | withdraw (mod : String)
  | start
  | settle (fulfilled : Bool) (v : JSVal)
  | release
  | setAutoStart (b : Bool)
deriving DecidableEq

/-- The coordinator state: the registry store, the `async` queue's waiting
list and in-flight tasks (by callable id), its paused flag, the
`queueAutoStart` value, the log of `cb` invocations (callable id paired
with the value passed to `cb`), the log of started tasks in start order,
and the fresh-id counter. -/
structure CoordState where
  registry : List QueuedAction
  waiting : List Nat
  running : List Nat
  paused : Bool
  autoStart : Bool
  settled : List (Nat × JSVal)
  started : List Nat
  nextId : Nat
deriving DecidableEq

/-- The `async` library's default concurrency for `queue(worker)`. -/
def concurrency : Nat := 1

/-- Module-load state: the queue is created unpaused, then the immediate
`queueAutoStart.subscribe` callback pauses it iff auto-start is off. -/
def initState (auto : Bool) : CoordState :=
  { registry := [], waiting := [], running := [], paused := !auto,
    autoStart := auto, settled := [], started := [], nextId := 0 }

/-- `startQueue()`: `modActionsQueue.resume()`. -/
def startQueue (s : CoordState) : CoordState :=
  { s with paused := false }

/-- `addQueuedModAction(mod, action, func)`: append the new `QueuedAction`
to the registry, resume the queue when `queueAutoStart` is on, and
`pushAsync(func)` (append the callable to the waiting list).  No duplicate
check of any kind is performed. -/
def addQueuedModAction (s : CoordState) (m a : String) : CoordState :=
  { s with
    registry := s.registry ++ [⟨s.nextId, m, a⟩],
    paused := if s.autoStart then false else s.paused,
    waiting := s.waiting ++ [s.nextId],
    nextId := s.nextId + 1 }

/-- `removeQueuedModAction(mod)`: find the first registry entry with the
given mod; if none, return.  Otherwise remove from the waiting list every
task whose callable is reference-equal to that entry's `func`
(`q.remove((a) => a.data === queuedAction.func)`; a running task is not in
the waiting list and is unaffected), and filter out of the registry every
entry whose mod matches. -/
def removeQueuedModAction (s : CoordState) (m : String) : CoordState :=
  match s.registry.find? (fun a => a.mod == m) with
  | none => s
  | some qa =>
    { s with
      waiting := s.waiting.filter (fun i => i != qa.id),
      registry := s.registry.filter (fun a => a.mod != m) }

/-- One iteration of the `async` queue's `process` loop: when not paused
and a worker slot is free, hand the head of the waiting list to the
worker; if that empties the waiting list, the `empty` callback fires and
pauses the queue unless `queueAutoStart` is on. -/
def processStep (s : CoordState) : CoordState :=
  if s.paused then s
  else if concurrency ≤ s.running.length then s
  else
    match s.waiting with
    | [] => s
    | id :: rest =>
      { s with
        waiting := rest,
        running := s.running ++ [id],
        started := s.started ++ [id],
        paused := rest.isEmpty && !s.autoStart }

/-- Settlement of the in-flight task: `complete(e)` filters the registry
by callable identity and calls `cb(e)` with the settled value, recorded in
`settled`.  Fulfillment and rejection both route here. -/
def settleStep (s : CoordState) (v : JSVal) : CoordState :=
  match s.running with
  | [] => s
  | id :: rest =>
    { s with
      running := rest,
      registry := s.registry.filter (fun a => a.id != id),
      settled := s.settled ++ [(id, v)] }

/-- `queueAutoStart.subscribe` reacting to a `set`: Svelte writable stores
notify only when the (primitive) value changes; on a change to true the
queue resumes, on a change to false it pauses. -/
def setAutoStart (s : CoordState) (b : Bool) : CoordState :=
  if b == s.autoStart then s
  else { s with autoStart := b, paused := !b }

/-- The step function of the coordinator. -/
def step (s : CoordState) : Event → CoordState
  | .submit m a => addQueuedModAction s m a
  | .withdraw m => removeQueuedModAction s m
  | .start => processStep s
  | .settle _ v => settleStep s v
  | .release => startQueue s
  | .setAutoStart b => setAutoStart s b

/-- Run a sequence of events from a state. -/
def run (s : CoordState) (es : List Event) : CoordState :=
  es.foldl step s

/-- The published `queuedMods` snapshot: `queuedActionsInternal` projected
to (mod, action) pairs (the `Omit` of `func` is type-level only). -/
def queuedMods (s : CoordState) : List (String × String) :=
  s.registry.map (fun qa => (qa.mod, qa.action))

/-- The possible states of the promise returned by `pushAsync`. -/
inductive HandleStatus where
  | pending
  | resolvedUndefined
  | rejected (v : JSVal)
deriving DecidableEq

/-- The `async` library's promise callback: `cb(e)` rejects with `e` when
`e` is truthy, otherwise resolves with `undefined` (no further callback
arguments are supplied). -/
def cbStatus (v : JSVal) : HandleStatus :=
  if v.truthy then .rejected v else .resolvedUndefined

/-- Status of the handle returned by `addQueuedModAction` for the
submission with callable id `i`. -/
def handleStatus (s : CoordState) (i : Nat) : HandleStatus :=
  match s.settled.find? (fun p => p.1 == i) with
  | none => .pending
  | some p => cbStatus p.2

/-- A submission id that has left the pipeline without ever being handed
to the worker: below the fresh-id counter, not waiting, not running,
never started, never settled. -/
def Dead (s : CoordState) (i : Nat) : Prop :=
  i < s.nextId ∧ i ∉ s.waiting ∧ i ∉ s.running ∧ i ∉ s.started ∧
    ∀ p ∈ s.settled, p.1 ≠ i

/-- Events that can reopen the gate of a held queue: `startQueue` and a
`queueAutoStart` change to true. -/
def opensGate : Event → Bool
  | .release => true
  | .setAutoStart b => b
  | _ => false

/-- The caller preconditions stated by the spec: a submission must not
reuse a key already present in the registry, and a withdrawal must not
target a key whose located entry is currently running. -/
def wfEvent (s : CoordState) : Event → Bool
  | .submit m _ => decide (∀ qa ∈ s.registry, qa.mod ≠ m)
  | .withdraw m =>
    match s.registry.find? (fun a => a.mod == m) with
    | none => true
    | some qa => decide (qa.id ∉ s.running)
  | _ => true

/-- A trace is well-formed from `s` when every event satisfies the caller
preconditions in the state in which it fires. -/
def wfTrace : CoordState → List Event → Bool
  | _, [] => true
  | s, e :: es => wfEvent s e && wfTrace (step s e) es

/-- Registry consistency: the registry lists exactly the running and the
waiting submissions, running first, with no duplicate keys and no
duplicate callables, and every recorded id below the fresh-id counter. -/
def RegInv (s : CoordState) : Prop :=
  s.registry.map (fun qa => qa.id) = s.running ++ s.waiting ∧
    (s.registry.map (fun qa => qa.mod)).Nodup ∧
    (s.registry.map (fun qa => qa.id)).Nodup ∧
    ∀ qa ∈ s.registry, qa.id < s.nextId

/-- The unconditional state invariant of the coordinator: the in-flight
set respects the queue's concurrency; all recorded ids are below the
fresh-id counter; the waiting list and the start log are strictly
ascending in submission order; every started id is larger than every
waiting id; waiting and running ids are disjoint; running and settled ids
have been started. -/
structure Inv (s : CoordState) : Prop where
  run_le : s.running.length ≤ concurrency
  wait_lt : ∀ i ∈ s.waiting, i < s.nextId
  run_lt : ∀ i ∈ s.running, i < s.nextId
  started_lt : ∀ i ∈ s.started, i < s.nextId
  wait_sorted : s.waiting.Pairwise (· < ·)
  started_sorted : s.started.Pairwise (· < ·)
  cross : ∀ j ∈ s.started, ∀ i ∈ s.waiting, j < i
  wait_run : ∀ i ∈ s.waiting, i ∉ s.running
  run_started : ∀ i ∈ s.running, i ∈ s.started
  settled_started : ∀ p ∈ s.settled, p.1 ∈ s.started

theorem inv_initState (auto : Bool) : Inv (initState auto) := by
  constructor <;> simp [initState, concurrency]

theorem inv_addQueuedModAction {s : CoordState} (h : Inv s) (m a : String) :
    Inv (addQueuedModAction s m a) := by
  unfold addQueuedModAction
  refine ⟨h.run_le, ?_, ?_, ?_, ?_, h.started_sorted, ?_, ?_, h.run_started,
    h.settled_started⟩
  · intro i hi
    rcases List.mem_append.1 hi with hi | hi
    · exact Nat.lt_succ_of_lt (h.wait_lt i hi)
    · simp only [List.mem_singleton] at hi
      subst hi; exact Nat.lt_succ_self _
  · exact fun i hi => Nat.lt_succ_of_lt (h.run_lt i hi)
  · exact fun i hi => Nat.lt_succ_of_lt (h.started_lt i hi)
  · refine List.pairwise_append.2 ⟨h.wait_sorted, List.pairwise_singleton _ _, ?_⟩
    intro x hx b hb
    simp only [List.mem_singleton] at hb
    subst hb; exact h.wait_lt x hx
  · intro j hj i hi
    rcases List.mem_append.1 hi with hi | hi
    · exact h.cross j hj i hi
    · simp only [List.mem_singleton] at hi
      subst hi; exact h.started_lt j hj
  · intro i hi
    rcases List.mem_append.1 hi with hi | hi
    · exact h.wait_run i hi
    · simp only [List.mem_singleton] at hi
      subst hi
      intro hmem
      exact absurd (h.run_lt _ hmem) (Nat.lt_irrefl _)

theorem inv_removeQueuedModAction {s : CoordState} (h : Inv s) (m : String) :
    Inv (removeQueuedModAction s m) := by
  unfold removeQueuedModAction
  cases hf : s.registry.find? (fun a => a.mod == m) with
  | none => exact h
  | some qa =>
    refine ⟨h.run_le, ?_, h.run_lt, h.started_lt, ?_, h.started_sorted, ?_, ?_,
      h.run_started, h.settled_started⟩
    · exact fun i hi => h.wait_lt i (List.mem_of_mem_filter hi)
    · exact h.wait_sorted.sublist (List.filter_sublist _)
    · exact fun j hj i hi => h.cross j hj i (List.mem_of_mem_filter hi)
    · exact fun i hi => h.wait_run i (List.mem_of_mem_filter hi)

theorem inv_processStep {s : CoordState} (h : Inv s) : Inv (processStep s) := by
  unfold processStep
  by_cases hp : s.paused
  · simp only [hp, if_true]; exact h
  · simp only [hp, if_false]
    by_cases hc : concurrency ≤ s.running.length
    · simp only [hc, if_true]; exact h
    · simp only [hc, if_false]
      cases hw : s.waiting with
      | nil => exact h
      | cons tid rest =>
        have hid : tid ∈ s.waiting := by rw [hw]; exact List.mem_cons_self _ _
        have hrest : ∀ i ∈ rest, i ∈ s.waiting := by
          intro i hi; rw [hw]; exact List.mem_cons_of_mem _ hi
        have hsorted : (tid :: rest).Pairwise (· < ·) := hw ▸ h.wait_sorted
        have hhead : ∀ i ∈ rest, tid < i := (List.pairwise_cons.1 hsorted).1
        refine ⟨?_, ?_, ?_, ?_, ?_, ?_, ?_, ?_, ?_, ?_⟩
        · simpa using Nat.succ_le_of_lt (Nat.lt_of_not_le hc)
        · exact fun i hi => h.wait_lt i (hrest i hi)
        · intro i hi
          rcases List.mem_append.1 hi with hi | hi
          · exact h.run_lt i hi
          · simp only [List.mem_singleton] at hi
            subst hi; exact h.wait_lt _ hid
        · intro i hi
          rcases List.mem_append.1 hi with hi | hi
          · exact h.started_lt i hi
          · simp only [List.mem_singleton] at hi
            subst hi; exact h.wait_lt _ hid
        · exact (List.pairwise_cons.1 hsorted).2
        · refine List.pairwise_append.2
            ⟨h.started_sorted, List.pairwise_singleton _ _, ?_⟩
          intro j hj b hb
          simp only [List.mem_singleton] at hb
          subst hb; exact h.cross j hj _ hid
        · intro j hj i hi
          rcases List.mem_append.1 hj with hj | hj
          · exact h.cross j hj i (hrest i hi)
          · simp only [List.mem_singleton] at hj
            subst hj; exact hhead i hi
        · intro i hi
          intro hmem
          rcases List.mem_append.1 hmem with hm | hm
          · exact h.wait_run i (hrest i hi) hm
          · simp only [List.mem_singleton] at hm
            subst hm; exact absurd (hhead i hi) (Nat.lt_irrefl _)
        · intro i hi
          rcases List.mem_append.1 hi with hi | hi
          · exact List.mem_append_left _ (h.run_started i hi)
          · exact List.mem_append_right _ hi
        · exact fun p hp' => List.mem_append_left _ (h.settled_started p hp')

theorem inv_settleStep {s : CoordState} (h : Inv s) (v : JSVal) :
    Inv (settleStep s v) := by
  unfold settleStep
  cases hr : s.running with
  | nil => exact h
  | cons tid rest =>
    have hid : tid ∈ s.running := by rw [hr]; exact List.mem_cons_self _ _
    have hrest : ∀ i ∈ rest, i ∈ s.running := by
      intro i hi; rw [hr]; exact List.mem_cons_of_mem _ hi
    refine ⟨?_, h.wait_lt, ?_, h.started_lt, h.wait_sorted, h.started_sorted,
      h.cross, ?_, ?_, ?_⟩
    · calc rest.length ≤ (tid :: rest).length := by simp
        _ ≤ concurrency := hr ▸ h.run_le
    · exact fun i hi => h.run_lt i (hrest i hi)
    · exact fun i hi hm => h.wait_run i hi (hrest _ hm)
    · exact fun i hi => h.run_started i (hrest i hi)
    · intro p hp'
      rcases List.mem_append.1 hp' with hp' | hp'
      · exact h.settled_started p hp'
      · simp only [List.mem_singleton] at hp'
        subst hp'; exact h.run_started _ hid

theorem inv_step {s : CoordState} (h : Inv s) (e : Event) : Inv (step s e) := by
  cases e with
  | submit m a => exact inv_addQueuedModAction h m a
  | withdraw m => exact inv_removeQueuedModAction h m
  | start => exact inv_processStep h
  | settle f v => exact inv_settleStep h v
  | release =>
    exact ⟨h.run_le, h.wait_lt, h.run_lt, h.started_lt, h.wait_sorted,
      h.started_sorted, h.cross, h.wait_run, h.run_started, h.settled_started⟩
  | setAutoStart b =>
    unfold step setAutoStart
    by_cases hb : b == s.autoStart
    · simp only [hb, if_true]; exact h
    · simp only [hb, if_false]
      exact ⟨h.run_le, h.wait_lt, h.run_lt, h.started_lt, h.wait_sorted,
        h.started_sorted, h.cross, h.wait_run, h.run_started, h.settled_started⟩

theorem run_cons (s : CoordState) (e : Event) (es : List Event) :
    run s (e :: es) = run (step s e) es := rfl

theorem inv_run {s : CoordState} (h : Inv s) (es : List Event) :
    Inv (run s es) := by
  induction es generalizing s with
  | nil => exact h
  | cons e es ih => exact ih (inv_step h e)

theorem step_submit (s : CoordState) (m a : String) :
    step s (.submit m a) = addQueuedModAction s m a := rfl

theorem step_withdraw (s : CoordState) (m : String) :
    step s (.withdraw m) = removeQueuedModAction s m := rfl

theorem step_start (s : CoordState) : step s .start = processStep s := rfl

theorem step_settle (s : CoordState) (f : Bool) (v : JSVal) :
    step s (.settle f v) = settleStep s v := rfl

theorem step_release (s : CoordState) : step s .release = startQueue s := rfl

theorem step_setAuto (s : CoordState) (b : Bool) :
    step s (.setAutoStart b) = setAutoStart s b := rfl

theorem run_append (s : CoordState) (es es' : List Event) :
    run s (es ++ es') = run (run s es) es' :=
  List.foldl_append _ _ _ _

theorem dead_step {s : CoordState} {i : Nat} (h : Dead s i) (e : Event) :
    Dead (step s e) i := by
  obtain ⟨hn, hw, hr, hs, hsl⟩ := h
  cases e with
  | submit m a =>
    refine ⟨Nat.lt_succ_of_lt hn, ?_, hr, hs, hsl⟩
    intro hmem
    rcases List.mem_append.1 hmem with hm | hm
    · exact hw hm
    · simp only [List.mem_singleton] at hm
      subst hm; exact Nat.lt_irrefl _ hn
  | withdraw m =>
    rw [step_withdraw]
    unfold removeQueuedModAction
    cases s.registry.find? (fun a => a.mod == m) with
    | none => exact ⟨hn, hw, hr, hs, hsl⟩
    | some qa =>
      exact ⟨hn, fun hm => hw (List.mem_of_mem_filter hm), hr, hs, hsl⟩
  | start =>
    rw [step_start]
    unfold processStep
    by_cases hp : s.paused
    · simp only [hp, if_true]; exact ⟨hn, hw, hr, hs, hsl⟩
    · simp only [hp, if_false]
      by_cases hc : concurrency ≤ s.running.length
      · simp only [hc, if_true]; exact ⟨hn, hw, hr, hs, hsl⟩
      · simp only [hc, if_false]
        cases hwl : s.waiting with
        | nil => exact ⟨hn, hw, hr, hs, hsl⟩
        | cons tid rest =>
          have htid : tid ≠ i := by
            intro hti
            subst hti
            exact hw (hwl ▸ List.mem_cons_self _ _)
          refine ⟨hn, ?_, ?_, ?_, hsl⟩
          · intro hm
            exact hw (hwl ▸ List.mem_cons_of_mem _ hm)
          · intro hm
            rcases List.mem_append.1 hm with hm | hm
            · exact hr hm
            · simp only [List.mem_singleton] at hm
              exact htid hm.symm
          · intro hm
            rcases List.mem_append.1 hm with hm | hm
            · exact hs hm
            · simp only [List.mem_singleton] at hm
              exact htid hm.symm
  | settle f v =>
    rw [step_settle]
    unfold settleStep
    cases hrl : s.running with
    | nil => exact ⟨hn, hw, hr, hs, hsl⟩
    | cons tid rest =>
      have htid : tid ≠ i := by
        intro hti
        subst hti
        exact hr (hrl ▸ List.mem_cons_self _ _)
      refine ⟨hn, hw, ?_, hs, ?_⟩
      · intro hm
        exact hr (hrl ▸ List.mem_cons_of_mem _ hm)
      · intro p hp'
        rcases List.mem_append.1 hp' with hp' | hp'
        · exact hsl p hp'
        · simp only [List.mem_singleton] at hp'
          subst hp'; exact htid
  | release => exact ⟨hn, hw, hr, hs, hsl⟩
  | setAutoStart b =>
    rw [step_setAuto]
    unfold setAutoStart
    by_cases hb : b == s.autoStart
    · simp only [hb, if_true]; exact ⟨hn, hw, hr, hs, hsl⟩
    · simp only [hb, if_false]; exact ⟨hn, hw, hr, hs, hsl⟩

theorem dead_run {s : CoordState} {i : Nat} (h : Dead s i) (es : List Event) :
    Dead (run s es) i := by
  induction es generalizing s with
  | nil => exact h
  | cons e es ih => exact ih (dead_step h e)

/-- After a withdrawal that hits a still-waiting submission, that
submission's id is gone from the whole pipeline. -/
theorem dead_after_withdraw {s : CoordState} (h : Inv s) {k : String}
    {qa : QueuedAction}
    (hf : s.registry.find? (fun a => a.mod == k) = some qa)
    (hq : qa.id ∈ s.waiting) :
    Dead (removeQueuedModAction s k) qa.id := by
  have hstarted : qa.id ∉ s.started := by
    intro hm
    exact absurd (h.cross qa.id hm qa.id hq) (Nat.lt_irrefl _)
  unfold removeQueuedModAction
  rw [hf]
  refine ⟨h.wait_lt qa.id hq, ?_, h.wait_run qa.id hq, hstarted, ?_⟩
  · intro hm
    have := (List.mem_filter.1 hm).2
    simp at this
  · intro p hp'
    intro hpe
    have := h.cross p.1 (h.settled_started p hp') qa.id hq
    rw [hpe] at this
    exact Nat.lt_irrefl _ this

theorem handleStatus_pending_of {s : CoordState} {i : Nat}
    (h : ∀ p ∈ s.settled, p.1 ≠ i) : handleStatus s i = .pending := by
  have hn : s.settled.find? (fun p => p.1 == i) = none := by
    rw [List.find?_eq_none]
    intro p hp'
    simpa using h p hp'
  simp [handleStatus, hn]

/-- In a strictly ascending list, two members in order form a sublist. -/
theorem pair_sublist_of_pairwise {l : List Nat} (hs : l.Pairwise (· < ·))
    {a b : Nat} (hab : a < b) (ha : a ∈ l) (hb : b ∈ l) :
    [a, b].Sublist l := by
  induction l with
  | nil => cases ha
  | cons x xs ih =>
    rcases List.mem_cons.1 ha with rfl | ha'
    · rcases List.mem_cons.1 hb with hbx | hb'
      · exact absurd hbx.symm (Nat.ne_of_lt hab)
      · exact List.Sublist.cons₂ _ (List.singleton_sublist.2 hb')
    · have hb' : b ∈ xs := by
        rcases List.mem_cons.1 hb with rfl | hb'
        · exact absurd ((List.pairwise_cons.1 hs).1 a ha') (Nat.lt_asymm hab)
        · exact hb'
      exact (ih (List.pairwise_cons.1 hs).2 ha' hb').cons _

theorem held_step {s : CoordState} (e : Event) (hp : s.paused = true)
    (ha : s.autoStart = false) (hg : opensGate e = false) :
    (step s e).paused = true ∧ (step s e).autoStart = false ∧
      (step s e).started = s.started := by
  cases e with
  | submit m a2 => simp [step, addQueuedModAction, ha, hp]
  | withdraw m =>
    rw [step_withdraw]
    unfold removeQueuedModAction
    cases s.registry.find? (fun a => a.mod == m) <;> simp [hp, ha]
  | start => simp [step, processStep, hp, ha]
  | settle f v =>
    rw [step_settle]
    unfold settleStep
    cases s.running <;> simp [hp, ha]
  | release => simp [opensGate] at hg
  | setAutoStart b =>
    cases b with
    | false =>
      rw [step_setAuto]
      unfold setAutoStart
      rw [ha]
      simp [hp, ha]
    | true => simp [opensGate] at hg

theorem held_run {s : CoordState} (es : List Event) (hp : s.paused = true)
    (ha : s.autoStart = false)
    (hg : es.all (fun e => !opensGate e) = true) :
    (run s es).paused = true ∧ (run s es).autoStart = false ∧
      (run s es).started = s.started := by
  induction es generalizing s with
  | nil => exact ⟨hp, ha, rfl⟩
  | cons e es ih =>
    rw [List.all_cons, Bool.and_eq_true] at hg
    have hge : opensGate e = false := by simpa using hg.1
    obtain ⟨h1, h2, h3⟩ := held_step e hp ha hge
    obtain ⟨g1, g2, g3⟩ := ih h1 h2 hg.2
    refine ⟨g1, g2, ?_⟩
    rw [run_cons, g3, h3]

example :
    (run (initState false) [.submit "ModX" "install", .submit "ModY" "enable"]).waiting
      = [0, 1] := by decide

example :
    queuedMods (run (initState false) [.submit "ModX" "install", .submit "ModY" "enable"])
      = [("ModX", "install"), ("ModY", "enable")] := by decide

example :
    (run (initState false)
      [.submit "ModX" "install", .release, .start, .settle true ⟨0, false⟩]).registry
      = [] := by decide

example :
    handleStatus (run (initState true)
      [.submit "ModX" "install", .start, .settle false ⟨3, true⟩]) 0
      = .rejected ⟨3, true⟩ := by decide

/-- Claim C1: for every sequence of events, at most one submitted
operation is in Running state at any instant: the `async` queue created by
`queue(worker)` has concurrency 1, so the coordinator's in-flight set
never holds more than one task, system-wide. -/
theorem c1_at_most_one_running (a : Bool) (es : List Event) :
    (run (initState a) es).running.length ≤ 1 :=
  (inv_run (inv_initState a) es).run_le

/-- Claim C5: a submission still in Queued state (its callable still in the
waiting list) that is withdrawn before the pipeline dequeues it never has
its operation invoked afterwards: its id never enters the start log, over
every continuation. -/
theorem c5_withdraw_before_run (a : Bool) (es es' : List Event) (k : String)
    (qa : QueuedAction)
    (hf : (run (initState a) es).registry.find? (fun x => x.mod == k) = some qa)
    (hq : qa.id ∈ (run (initState a) es).waiting) :
    qa.id ∉ (run (initState a) (es ++ .withdraw k :: es')).started := by
  have hinv := inv_run (inv_initState a) es
  have hdead := dead_after_withdraw hinv hf hq
  have hrw : run (initState a) (es ++ .withdraw k :: es')
      = run (step (run (initState a) es) (.withdraw k)) es' := by
    rw [run_append, run_cons]
  rw [hrw]
  have hd : Dead (run (step (run (initState a) es) (.withdraw k)) es') qa.id :=
    dead_run (by rw [step_withdraw]; exact hdead) es'
  exact hd.2.2.2.1

/-- Witness for C5 at a concrete trace: ModX is submitted, withdrawn while
queued, and its operation never starts even after release and draining. -/
theorem c5_witness :
    (run (initState false) [.submit "ModX" "install"]).registry.find?
        (fun x => x.mod == "ModX") = some ⟨0, "ModX", "install"⟩ ∧
      0 ∈ (run (initState false) [.submit "ModX" "install"]).waiting ∧
      0 ∉ (run (initState false)
        ([.submit "ModX" "install"] ++ .withdraw "ModX" ::
          [.release, .start, .settle true ⟨1, false⟩])).started :=
  ⟨by decide, by decide,
    c5_withdraw_before_run false [.submit "ModX" "install"]
      [.release, .start, .settle true ⟨1, false⟩] "ModX" ⟨0, "ModX", "install"⟩
      (by decide) (by decide)⟩

/-- Claim C6: FIFO start order. Ids are assigned in submission order and
the start log is strictly ascending, so when an earlier submission A and a
later submission B both start, A starts first; and B can never have
started while A is still waiting. -/
theorem c6_fifo_order (a : Bool) (es : List Event) (idA idB : Nat)
    (hlt : idA < idB) (hB : idB ∈ (run (initState a) es).started) :
    idA ∉ (run (initState a) es).waiting ∧
      (idA ∈ (run (initState a) es).started →
        [idA, idB].Sublist (run (initState a) es).started) := by
  have h := inv_run (inv_initState a) es
  refine ⟨?_, ?_⟩
  · intro hw
    exact absurd (h.cross idB hB idA hw) (Nat.lt_asymm hlt)
  · intro hA
    exact pair_sublist_of_pairwise h.started_sorted hlt hA hB

/-- Witness for C6 at a concrete trace with two submissions that both
start. -/
theorem c6_witness :
    (0 : Nat) < 1 ∧
      1 ∈ (run (initState true) [.submit "ModX" "install",
        .submit "ModY" "enable", .start, .settle true ⟨0, false⟩,
        .start]).started ∧
      0 ∉ (run (initState true) [.submit "ModX" "install",
        .submit "ModY" "enable", .start, .settle true ⟨0, false⟩,
        .start]).waiting ∧
      [0, 1].Sublist (run (initState true) [.submit "ModX" "install",
        .submit "ModY" "enable", .start, .settle true ⟨0, false⟩,
        .start]).started :=
  ⟨by decide, by decide,
    (c6_fifo_order true [.submit "ModX" "install", .submit "ModY" "enable",
      .start, .settle true ⟨0, false⟩, .start] 0 1 (by decide) (by decide)).1,
    (c6_fifo_order true [.submit "ModX" "install", .submit "ModY" "enable",
      .start, .settle true ⟨0, false⟩, .start] 0 1 (by decide)
      (by decide)).2 (by decide)⟩

/-- Claim C7: gate behaviour of Submit. With the auto-start policy
disabled, a submission leaves the paused flag untouched, and a held
pipeline stays held — starting nothing — through any continuation that
contains neither `startQueue` nor an enable of the policy; with the policy
enabled, the submission itself resumes the pipeline (Held to Draining). -/
theorem c7_gate_semantics (s : CoordState) (m a : String) (es : List Event) :
    (s.autoStart = false → (addQueuedModAction s m a).paused = s.paused) ∧
    (s.autoStart = false → s.paused = true →
      es.all (fun e => !opensGate e) = true →
      (run (addQueuedModAction s m a) es).paused = true ∧
        (run (addQueuedModAction s m a) es).started = s.started) ∧
    (s.autoStart = true → (addQueuedModAction s m a).paused = false) := by
  refine ⟨?_, ?_, ?_⟩
  · intro ha; simp [addQueuedModAction, ha]
  · intro ha hp hg
    have h1 : (addQueuedModAction s m a).paused = true := by
      simp [addQueuedModAction, ha, hp]
    have h2 : (addQueuedModAction s m a).autoStart = false := ha
    obtain ⟨g1, g2, g3⟩ := held_run es h1 h2 hg
    exact ⟨g1, g3⟩
  · intro ha; simp [addQueuedModAction, ha]

/-- Witness for C7: a held pipeline with the policy off stays held across
a submission and a gateless continuation, and with the policy on a
submission unpauses the pipeline. -/
theorem c7_witness :
    ((addQueuedModAction (initState false) "ModX" "install").paused
        = (initState false).paused) ∧
      ((run (addQueuedModAction (initState false) "ModX" "install")
          [.submit "ModY" "enable", .withdraw "ModX", .start]).paused = true ∧
        (run (addQueuedModAction (initState false) "ModX" "install")
          [.submit "ModY" "enable", .withdraw "ModX", .start]).started = []) ∧
      ((addQueuedModAction (initState true) "ModX" "install").paused
        = false) :=
  ⟨(c7_gate_semantics (initState false) "ModX" "install" []).1 rfl,
    (c7_gate_semantics (initState false) "ModX" "install"
      [.submit "ModY" "enable", .withdraw "ModX", .start]).2.1 rfl rfl
      (by decide),
    (c7_gate_semantics (initState true) "ModX" "install" []).2.2 rfl⟩

/-- Claim C9: the handle returned by Submit settles only with the
operation's settlement; a submission withdrawn while still Queued has its
handle permanently unsettled — pending at the moment of withdrawal and
pending after every continuation. -/
theorem c9_withdrawn_handle_pending (a : Bool) (es es' : List Event)
    (k : String) (qa : QueuedAction)
    (hf : (run (initState a) es).registry.find? (fun x => x.mod == k) = some qa)
    (hq : qa.id ∈ (run (initState a) es).waiting) :
    handleStatus (run (initState a) es) qa.id = .pending ∧
      handleStatus (run (initState a) (es ++ .withdraw k :: es')) qa.id
        = .pending := by
  have hinv := inv_run (inv_initState a) es
  have hnow : ∀ p ∈ (run (initState a) es).settled, p.1 ≠ qa.id := by
    intro p hp' hpe
    have hcr := hinv.cross p.1 (hinv.settled_started p hp') qa.id hq
    rw [hpe] at hcr
    exact Nat.lt_irrefl _ hcr
  refine ⟨handleStatus_pending_of hnow, ?_⟩
  have hdead := dead_after_withdraw hinv hf hq
  have hrw : run (initState a) (es ++ .withdraw k :: es')
      = run (step (run (initState a) es) (.withdraw k)) es' := by
    rw [run_append, run_cons]
  rw [hrw]
  have hd : Dead (run (step (run (initState a) es) (.withdraw k)) es') qa.id :=
    dead_run (by rw [step_withdraw]; exact hdead) es'
  exact handleStatus_pending_of hd.2.2.2.2

/-- Witness for C9 at a concrete trace: ModY is withdrawn while queued and
its handle stays pending through release, draining and settlement of the
other submission. -/
theorem c9_witness :
    (run (initState false) [.submit "ModY" "remove", .submit "ModZ" "install"]).registry.find?
        (fun x => x.mod == "ModY") = some ⟨0, "ModY", "remove"⟩ ∧
      0 ∈ (run (initState false)
        [.submit "ModY" "remove", .submit "ModZ" "install"]).waiting ∧
      handleStatus (run (initState false)
        [.submit "ModY" "remove", .submit "ModZ" "install"]) 0 = .pending ∧
      handleStatus (run (initState false)
        ([.submit "ModY" "remove", .submit "ModZ" "install"] ++
          .withdraw "ModY" :: [.release, .start, .settle false ⟨2, true⟩])) 0
        = .pending :=
  ⟨by decide, by decide,
    (c9_withdrawn_handle_pending false
      [.submit "ModY" "remove", .submit "ModZ" "install"]
      [.release, .start, .settle false ⟨2, true⟩] "ModY" ⟨0, "ModY", "remove"⟩
      (by decide) (by decide)).1,
    (c9_withdrawn_handle_pending false
      [.submit "ModY" "remove", .submit "ModZ" "install"]
      [.release, .start, .settle false ⟨2, true⟩] "ModY" ⟨0, "ModY", "remove"⟩
      (by decide) (by decide)).2⟩

theorem filter_map_comm (l : List QueuedAction) (p : QueuedAction → Bool)
    (q : Nat → Bool) (h : ∀ x ∈ l, p x = q x.id) :
    (l.filter p).map (fun qa => qa.id) = (l.map (fun qa => qa.id)).filter q := by
  induction l with
  | nil => rfl
  | cons x xs ih =>
    have hx := h x (List.mem_cons_self _ _)
    have ihx := ih (fun y hy => h y (List.mem_cons_of_mem _ hy))
    simp only [List.filter_cons, List.map_cons, hx]
    by_cases hq : q x.id
    · simp [hq, ihx]
    · simp [hq, ihx]

theorem regInv_step {s : CoordState} (hr : RegInv s) (e : Event)
    (hwf : wfEvent s e = true) : RegInv (step s e) := by
  obtain ⟨hids, hmods, hidnd, hbound⟩ := hr
  cases e with
  | submit m a =>
    rw [step_submit]
    have hfresh : ∀ qa ∈ s.registry, qa.mod ≠ m := of_decide_eq_true hwf
    unfold addQueuedModAction
    refine ⟨?_, ?_, ?_, ?_⟩
    · show (s.registry ++ [QueuedAction.mk s.nextId m a]).map (fun qa => qa.id)
        = s.running ++ (s.waiting ++ [s.nextId])
      rw [List.map_append, hids, List.append_assoc]
      rfl
    · show ((s.registry ++ [QueuedAction.mk s.nextId m a]).map (fun qa => qa.mod)).Nodup
      rw [List.map_append]
      refine List.Nodup.append hmods (List.nodup_singleton _) ?_
      intro x hx1 hx2
      simp only [List.map_cons, List.map_nil, List.mem_singleton] at hx2
      subst hx2
      obtain ⟨qa, hqa, hqm⟩ := List.mem_map.1 hx1
      exact hfresh qa hqa hqm
    · show ((s.registry ++ [QueuedAction.mk s.nextId m a]).map (fun qa => qa.id)).Nodup
      rw [List.map_append]
      refine List.Nodup.append hidnd (List.nodup_singleton _) ?_
      intro x hx1 hx2
      simp only [List.map_cons, List.map_nil, List.mem_singleton] at hx2
      subst hx2
      obtain ⟨qa, hqa, hqm⟩ := List.mem_map.1 hx1
      exact absurd (hqm ▸ hbound qa hqa) (Nat.lt_irrefl _)
    · intro qa hqa
      rcases List.mem_append.1 hqa with hqa | hqa
      · exact Nat.lt_succ_of_lt (hbound qa hqa)
      · simp only [List.mem_singleton] at hqa
        subst hqa; exact Nat.lt_succ_self _
  | withdraw m =>
    rw [step_withdraw]
    unfold removeQueuedModAction
    cases hf : s.registry.find? (fun a => a.mod == m) with
    | none => exact ⟨hids, hmods, hidnd, hbound⟩
    | some qa =>
      simp only [wfEvent, hf] at hwf
      have hrun : qa.id ∉ s.running := of_decide_eq_true hwf
      have hmem : qa ∈ s.registry := List.mem_of_find?_eq_some hf
      have hqmod : qa.mod = m := by
        have := List.find?_some hf
        simpa using this
      have hinj_mod := List.inj_on_of_nodup_map hmods
      have hinj_id := List.inj_on_of_nodup_map hidnd
      have hpt : ∀ x ∈ s.registry, (x.mod != m) = (x.id != qa.id) := by
        intro x hx
        by_cases hxm : x.mod = m
        · have hxe : x = qa := hinj_mod hx hmem (by rw [hxm, hqmod])
          rw [hxe, hqmod]
          simp
        · have hne2 : x.id ≠ qa.id := by
            intro hid
            exact hxm (by rw [hinj_id hx hmem hid, hqmod])
          have h1 : (x.mod != m) = true := by simpa using hxm
          have h2 : (x.id != qa.id) = true := by simpa using hne2
          rw [h1, h2]
      have hself : s.running.filter (fun i => i != qa.id) = s.running :=
        List.filter_eq_self.mpr (fun x hx => by
          simp only [bne_iff_ne, ne_eq]
          exact fun he => hrun (he ▸ hx))
      refine ⟨?_, ?_, ?_, ?_⟩
      · show (s.registry.filter (fun a => a.mod != m)).map (fun qa => qa.id)
          = s.running ++ s.waiting.filter (fun i => i != qa.id)
        rw [filter_map_comm s.registry (fun a => a.mod != m)
          (fun i => i != qa.id) hpt, hids, List.filter_append, hself]
      · exact List.Nodup.sublist ((List.filter_sublist _).map _) hmods
      · exact List.Nodup.sublist ((List.filter_sublist _).map _) hidnd
      · exact fun qb hqb => hbound qb (List.mem_of_mem_filter hqb)
  | start =>
    rw [step_start]
    unfold processStep
    by_cases hp : s.paused
    · simp only [hp, if_true]; exact ⟨hids, hmods, hidnd, hbound⟩
    · simp only [hp, if_false]
      by_cases hc : concurrency ≤ s.running.length
      · simp only [hc, if_true]; exact ⟨hids, hmods, hidnd, hbound⟩
      · simp only [hc, if_false]
        cases hwl : s.waiting with
        | nil => exact ⟨hids, hmods, hidnd, hbound⟩
        | cons tid rest =>
          refine ⟨?_, hmods, hidnd, hbound⟩
          show s.registry.map (fun qa => qa.id)
            = (s.running ++ [tid]) ++ rest
          rw [hids, hwl]
          simp
  | settle f v =>
    rw [step_settle]
    unfold settleStep
    cases hrl : s.running with
    | nil => exact ⟨hids, hmods, hidnd, hbound⟩
    | cons tid rest =>
      have hpt : ∀ x ∈ s.registry, (x.id != tid) = (x.id != tid) :=
        fun x _ => rfl
      have hnd : (tid :: (rest ++ s.waiting)).Nodup := by
        have hh := hidnd
        rw [hids, hrl] at hh
        simpa using hh
      have htid : tid ∉ rest ++ s.waiting := (List.nodup_cons.1 hnd).1
      have hself : (rest ++ s.waiting).filter (fun i => i != tid)
          = rest ++ s.waiting :=
        List.filter_eq_self.mpr (fun x hx => by
          simp only [bne_iff_ne, ne_eq]
          exact fun he => htid (he ▸ hx))
      refine ⟨?_, ?_, ?_, ?_⟩
      · show (s.registry.filter (fun a => a.id != tid)).map (fun qa => qa.id)
          = rest ++ s.waiting
        rw [filter_map_comm s.registry (fun a => a.id != tid)
          (fun i => i != tid) hpt, hids, hrl, List.cons_append,
          List.filter_cons]
        simp [hself]
      · exact List.Nodup.sublist ((List.filter_sublist _).map _) hmods
      · exact List.Nodup.sublist ((List.filter_sublist _).map _) hidnd
      · exact fun qb hqb => hbound qb (List.mem_of_mem_filter hqb)
  | release => exact ⟨hids, hmods, hidnd, hbound⟩
  | setAutoStart b =>
    rw [step_setAuto]
    unfold setAutoStart
    by_cases hb : b == s.autoStart
    · simp only [hb, if_true]; exact ⟨hids, hmods, hidnd, hbound⟩
    · simp only [hb, if_false]; exact ⟨hids, hmods, hidnd, hbound⟩

theorem regInv_run {s : CoordState} (hr : RegInv s) (es : List Event)
    (hw : wfTrace s es = true) : RegInv (run s es) := by
  induction es generalizing s with
  | nil => exact hr
  | cons e es ih =>
    simp only [wfTrace, Bool.and_eq_true] at hw
    exact ih (regInv_step hr e hw.1) hw.2

/-- Claim C2 (amended): after every well-formed sequence of events — no
Submit reusing a key already present, no Withdraw aimed at an entry that
is currently running — the registry snapshot lists exactly the
submissions in Queued or Running state, in order, with no duplicate keys,
no stale entries and nothing missing. -/
theorem c2_registry_consistency (a : Bool) (es : List Event)
    (hw : wfTrace (initState a) es = true) :
    (run (initState a) es).registry.map (fun qa => qa.id)
        = (run (initState a) es).running ++ (run (initState a) es).waiting ∧
      ((run (initState a) es).registry.map (fun qa => qa.mod)).Nodup := by
  have h0 : RegInv (initState a) :=
    ⟨rfl, List.nodup_nil, List.nodup_nil, fun qa h => absurd h (List.not_mem_nil qa)⟩
  have h := regInv_run h0 es hw
  exact ⟨h.1, h.2.1⟩

/-- Counterexample to claim C2 as stated: withdrawing a key whose
submission is already Running removes it from the registry while it is
still Running, so the snapshot no longer equals the Queued-or-Running
set — the running submission 0 has no registry entry. -/
theorem c2_counterexample :
    (run (initState false)
        [.submit "ModX" "install", .release, .start, .withdraw "ModX"]).running
      = [0] ∧
    (run (initState false)
        [.submit "ModX" "install", .release, .start, .withdraw "ModX"]).registry.map
          (fun qa => qa.id)
      ≠ (run (initState false)
          [.submit "ModX" "install", .release, .start, .withdraw "ModX"]).running
        ++ (run (initState false)
          [.submit "ModX" "install", .release, .start, .withdraw "ModX"]).waiting := by
  decide

/-- Witness for the amended C2 at a concrete well-formed trace with a
submission, a withdrawal while queued, and a fresh resubmission. -/
theorem c2_witness :
    wfTrace (initState false) [.submit "ModX" "install", .withdraw "ModX",
        .submit "ModX" "remove", .release, .start] = true ∧
      ((run (initState false) [.submit "ModX" "install", .withdraw "ModX",
          .submit "ModX" "remove", .release, .start]).registry.map
            (fun qa => qa.id)
        = (run (initState false) [.submit "ModX" "install", .withdraw "ModX",
            .submit "ModX" "remove", .release, .start]).running
          ++ (run (initState false) [.submit "ModX" "install", .withdraw "ModX",
            .submit "ModX" "remove", .release, .start]).waiting ∧
        ((run (initState false) [.submit "ModX" "install", .withdraw "ModX",
          .submit "ModX" "remove", .release, .start]).registry.map
            (fun qa => qa.mod)).Nodup) :=
  ⟨by decide,
    c2_registry_consistency false [.submit "ModX" "install", .withdraw "ModX",
      .submit "ModX" "remove", .release, .start] (by decide)⟩

/-- Counterexample to claim C3 as stated: a second Submit with the key
ModX already queued is not surfaced as an error and does not leave the
pipeline unchanged — the coordinator appends it, and the registry then
holds the key twice. -/
theorem c3_counterexample :
    run (initState false) [.submit "ModX" "install", .submit "ModX" "install"]
        ≠ run (initState false) [.submit "ModX" "install"] ∧
      (run (initState false)
        [.submit "ModX" "install", .submit "ModX" "install"]).registry.map
          (fun qa => qa.mod) = ["ModX", "ModX"] := by
  decide

/-- Claim C3 (amended): Submit performs no duplicate-key check: even when
an entry with the key is already present in the registry, the coordinator
accepts the submission and appends it to the registry and to the waiting
list exactly as for a fresh key — rejecting duplicates is left to the
caller. -/
theorem c3_submit_duplicate_accepted (s : CoordState) (m a : String)
    (qa : QueuedAction) (h1 : qa ∈ s.registry) (h2 : qa.mod = m) :
    (addQueuedModAction s m a).registry
        = s.registry ++ [QueuedAction.mk s.nextId m a] ∧
      (addQueuedModAction s m a).waiting = s.waiting ++ [s.nextId] ∧
      (addQueuedModAction s m a).nextId = s.nextId + 1 :=
  ⟨rfl, rfl, rfl⟩

/-- Witness for the amended C3: a duplicate submission for ModX is
appended behind the existing entry. -/
theorem c3_witness :
    QueuedAction.mk 0 "ModX" "install"
        ∈ (run (initState false) [.submit "ModX" "install"]).registry ∧
      (addQueuedModAction (run (initState false) [.submit "ModX" "install"])
          "ModX" "remove").registry
        = (run (initState false) [.submit "ModX" "install"]).registry
          ++ [QueuedAction.mk 1 "ModX" "remove"] ∧
      (addQueuedModAction (run (initState false) [.submit "ModX" "install"])
          "ModX" "remove").waiting
        = (run (initState false) [.submit "ModX" "install"]).waiting ++ [1] :=
  ⟨by decide,
    (c3_submit_duplicate_accepted
      (run (initState false) [.submit "ModX" "install"]) "ModX" "remove"
      (QueuedAction.mk 0 "ModX" "install") (by decide) rfl).1,
    (c3_submit_duplicate_accepted
      (run (initState false) [.submit "ModX" "install"]) "ModX" "remove"
      (QueuedAction.mk 0 "ModX" "install") (by decide) rfl).2.1⟩

/-- Counterexample to claim C4 as stated: while the submission for ModZ is
Running, Withdraw of ModZ is not a no-op — it removes the running entry
from the registry (the snapshot changes) even though the operation keeps
running. -/
theorem c4_counterexample :
    (run (initState false)
        [.submit "ModZ" "disable", .release, .start]).registry
      = [QueuedAction.mk 0 "ModZ" "disable"] ∧
    (run (initState false)
        [.submit "ModZ" "disable", .release, .start]).running = [0] ∧
    (run (initState false)
        [.submit "ModZ" "disable", .release, .start, .withdraw "ModZ"]).registry
      = [] ∧
    (run (initState false)
        [.submit "ModZ" "disable", .release, .start, .withdraw "ModZ"]).running
      = [0] := by
  decide

/-- Claim C4 (amended): Withdraw of a key with no registry entry is a
complete no-op; Withdraw of a key whose located entry is Running leaves
the execution pipeline (waiting, running, paused, started, settled)
unchanged — the operation keeps running — but removes every entry with
that key from the registry, so the snapshot does change. -/
theorem c4_withdraw_running_or_missing (s : CoordState) (k : String) :
    (s.registry.find? (fun a => a.mod == k) = none →
      removeQueuedModAction s k = s) ∧
    (∀ qa, s.registry.find? (fun a => a.mod == k) = some qa →
      qa.id ∈ s.running → qa.id ∉ s.waiting →
      (removeQueuedModAction s k).waiting = s.waiting ∧
        (removeQueuedModAction s k).running = s.running ∧
        (removeQueuedModAction s k).paused = s.paused ∧
        (removeQueuedModAction s k).started = s.started ∧
        (removeQueuedModAction s k).settled = s.settled ∧
        (removeQueuedModAction s k).registry
          = s.registry.filter (fun a => a.mod != k)) := by
  constructor
  · intro hf
    unfold removeQueuedModAction
    rw [hf]
  · intro qa hf hrun hwait
    unfold removeQueuedModAction
    rw [hf]
    refine ⟨?_, rfl, rfl, rfl, rfl, rfl⟩
    show s.waiting.filter (fun i => i != qa.id) = s.waiting
    refine List.filter_eq_self.mpr (fun x hx => ?_)
    have hne : x ≠ qa.id := fun he => hwait (he ▸ hx)
    simpa using hne

/-- Witness for the amended C4: with ModW running, Withdraw("ModW") keeps
the pipeline intact and only purges the registry; Withdraw of an unknown
key is the identity. -/
theorem c4_witness :
    ((run (initState false) [.submit "ModW" "enable", .release,
        .start]).registry.find? (fun a => a.mod == "Missing") = none ∧
      removeQueuedModAction (run (initState false) [.submit "ModW" "enable",
        .release, .start]) "Missing"
        = run (initState false) [.submit "ModW" "enable", .release, .start]) ∧
    ((run (initState false) [.submit "ModW" "enable", .release,
        .start]).registry.find? (fun a => a.mod == "ModW")
        = some (QueuedAction.mk 0 "ModW" "enable") ∧
      0 ∈ (run (initState false) [.submit "ModW" "enable", .release,
        .start]).running ∧
      (removeQueuedModAction (run (initState false) [.submit "ModW" "enable",
          .release, .start]) "ModW").running
        = (run (initState false) [.submit "ModW" "enable", .release,
          .start]).running ∧
      (removeQueuedModAction (run (initState false) [.submit "ModW" "enable",
          .release, .start]) "ModW").registry
        = (run (initState false) [.submit "ModW" "enable", .release,
          .start]).registry.filter (fun a => a.mod != "ModW")) :=
  ⟨⟨by decide,
    (c4_withdraw_running_or_missing (run (initState false)
      [.submit "ModW" "enable", .release, .start]) "Missing").1 (by decide)⟩,
    ⟨by decide, by decide,
    ((c4_withdraw_running_or_missing (run (initState false)
        [.submit "ModW" "enable", .release, .start]) "ModW").2
      (QueuedAction.mk 0 "ModW" "enable") (by decide) (by decide)
      (by decide)).2.1,
    ((c4_withdraw_running_or_missing (run (initState false)
        [.submit "ModW" "enable", .release, .start]) "ModW").2
      (QueuedAction.mk 0 "ModW" "enable") (by decide) (by decide)
      (by decide)).2.2.2.2.2⟩⟩

/-- Counterexample to claim C8 as stated: submission B's operation
fulfils (the event records a fulfilled promise) with the truthy value
⟨2, true⟩, yet B's handle is rejected with that very value rather than
resolved with it — the worker passes the fulfillment value through the
queue callback's error slot. -/
theorem c8_counterexample :
    handleStatus (run (initState true)
        [.submit "ModA" "install", .start, .settle false (JSVal.mk 1 true),
          .submit "ModB" "install", .start, .settle true (JSVal.mk 2 true)]) 1
      = .rejected (JSVal.mk 2 true) ∧
    1 ∈ (run (initState true)
        [.submit "ModA" "install", .start, .settle false (JSVal.mk 1 true),
          .submit "ModB" "install", .start, .settle true (JSVal.mk 2 true)]).started := by
  decide

/-- Claim C8 (amended): with auto-start enabled, after submission A's
operation fails with a truthy error and a later submission B's operation
succeeds with a falsy value, A's handle is rejected with A's error, B's
handle is resolved (with undefined — the coordinator never forwards B's
success value, and a truthy success value would instead reject B's
handle), and B's operation still runs: A's failure never halts the
pipeline. -/
theorem c8_error_isolation (kA aA kB aB : String) (vA vB : JSVal)
    (hA : vA.truthy = true) (hB : vB.truthy = false) :
    handleStatus (run (initState true)
        [.submit kA aA, .start, .settle false vA,
          .submit kB aB, .start, .settle true vB]) 0 = .rejected vA ∧
      handleStatus (run (initState true)
        [.submit kA aA, .start, .settle false vA,
          .submit kB aB, .start, .settle true vB]) 1 = .resolvedUndefined ∧
      1 ∈ (run (initState true)
        [.submit kA aA, .start, .settle false vA,
          .submit kB aB, .start, .settle true vB]).started := by
  refine ⟨?_, ?_, ?_⟩
  · show cbStatus vA = .rejected vA
    simp [cbStatus, hA]
  · show cbStatus vB = .resolvedUndefined
    simp [cbStatus, hB]
  · show (1 : Nat) ∈ [0, 1]
    decide

/-- Witness for the amended C8 at concrete settlement values. -/
theorem c8_witness :
    (JSVal.mk 7 true).truthy = true ∧ (JSVal.mk 0 false).truthy = false ∧
      handleStatus (run (initState true)
        [.submit "ModA" "install", .start, .settle false (JSVal.mk 7 true),
          .submit "ModB" "enable", .start,
          .settle true (JSVal.mk 0 false)]) 0 = .rejected (JSVal.mk 7 true) ∧
      handleStatus (run (initState true)
        [.submit "ModA" "install", .start, .settle false (JSVal.mk 7 true),
          .submit "ModB" "enable", .start,
          .settle true (JSVal.mk 0 false)]) 1 = .resolvedUndefined ∧
      1 ∈ (run (initState true)
        [.submit "ModA" "install", .start, .settle false (JSVal.mk 7 true),
          .submit "ModB" "enable", .start,
          .settle true (JSVal.mk 0 false)]).started :=
  ⟨rfl, rfl,
    (c8_error_isolation "ModA" "install" "ModB" "enable"
      (JSVal.mk 7 true) (JSVal.mk 0 false) rfl rfl).1,
    (c8_error_isolation "ModA" "install" "ModB" "enable"
      (JSVal.mk 7 true) (JSVal.mk 0 false) rfl rfl).2.1,
    (c8_error_isolation "ModA" "install" "ModB" "enable"
      (JSVal.mk 7 true) (JSVal.mk 0 false) rfl rfl).2.2⟩

/-- Claim C10: when two Queued submissions carry the same key with
distinct callables, Withdraw of that key removes every matching registry
entry but removes only the first entry's callable from the waiting list:
the second submission stays queued invisibly, and on release it still
starts. -/
theorem c10_duplicate_key_withdraw (s : CoordState) (k : String)
    (qa1 qa2 : QueuedAction)
    (hf : s.registry.find? (fun a => a.mod == k) = some qa1)
    (h2 : qa2 ∈ s.registry) (h2k : qa2.mod = k) (hne : qa2.id ≠ qa1.id)
    (hwl : s.waiting = [qa1.id, qa2.id]) (hrl : s.running = []) :
    (∀ qb ∈ (removeQueuedModAction s k).registry, qb.mod ≠ k) ∧
      qa2 ∉ (removeQueuedModAction s k).registry ∧
      (removeQueuedModAction s k).waiting = [qa2.id] ∧
      (run (removeQueuedModAction s k) [.release, .start]).running = [qa2.id] ∧
      (run (removeQueuedModAction s k) [.release, .start]).started
        = s.started ++ [qa2.id] := by
  have hreg : (removeQueuedModAction s k).registry
      = s.registry.filter (fun a => a.mod != k) := by
    unfold removeQueuedModAction; rw [hf]
  have hwait : (removeQueuedModAction s k).waiting = [qa2.id] := by
    unfold removeQueuedModAction; rw [hf]
    show s.waiting.filter (fun i => i != qa1.id) = [qa2.id]
    rw [hwl]
    have hq2 : (qa2.id != qa1.id) = true := by simpa using hne
    simp [List.filter_cons, hq2]
  have hrun : (removeQueuedModAction s k).running = [] := by
    unfold removeQueuedModAction; rw [hf]
    show s.running = []
    exact hrl
  have hst : (removeQueuedModAction s k).started = s.started := by
    unfold removeQueuedModAction; rw [hf]
  refine ⟨?_, ?_, hwait, ?_, ?_⟩
  · intro qb hqb
    rw [hreg] at hqb
    have hb := (List.mem_filter.1 hqb).2
    simpa using hb
  · intro hqb
    rw [hreg] at hqb
    have hb := (List.mem_filter.1 hqb).2
    rw [h2k] at hb
    simp at hb
  · show (processStep (startQueue (removeQueuedModAction s k))).running
      = [qa2.id]
    simp [processStep, startQueue, hrun, hwait, concurrency]
  · show (processStep (startQueue (removeQueuedModAction s k))).started
      = s.started ++ [qa2.id]
    simp [processStep, startQueue, hrun, hwait, hst, concurrency]

/-- Witness for C10: two submissions for DupMod with distinct callables;
after Withdraw("DupMod") the snapshot is empty but the second callable is
still queued and starts on release. -/
theorem c10_witness :
    (run (initState false) [.submit "DupMod" "install",
        .submit "DupMod" "remove"]).registry.find?
        (fun a => a.mod == "DupMod") = some (QueuedAction.mk 0 "DupMod" "install") ∧
      QueuedAction.mk 1 "DupMod" "remove"
        ∈ (run (initState false) [.submit "DupMod" "install",
          .submit "DupMod" "remove"]).registry ∧
      (removeQueuedModAction (run (initState false) [.submit "DupMod" "install",
          .submit "DupMod" "remove"]) "DupMod").waiting = [1] ∧
      (run (removeQueuedModAction (run (initState false)
          [.submit "DupMod" "install", .submit "DupMod" "remove"]) "DupMod")
        [.release, .start]).running = [1] ∧
      (run (removeQueuedModAction (run (initState false)
          [.submit "DupMod" "install", .submit "DupMod" "remove"]) "DupMod")
        [.release, .start]).started
        = (run (initState false) [.submit "DupMod" "install",
          .submit "DupMod" "remove"]).started ++ [1] := by
  have h := c10_duplicate_key_withdraw
    (run (initState false) [.submit "DupMod" "install", .submit "DupMod" "remove"])
    "DupMod" (QueuedAction.mk 0 "DupMod" "install")
    (QueuedAction.mk 1 "DupMod" "remove")
    (by decide) (by decide) rfl (by decide) (by decide) (by decide)
  exact ⟨by decide, by decide, h.2.2.1, h.2.2.2.1, h.2.2.2.2⟩

end SMM
